import Mathlib

/-!
Verification development for the hot-search-scraper history store
(`storage.py`, `init_db.py`) and the weibo heat parser (`scraper/weibo.py`).

The Python code is shallowly embedded: loosely-typed Python values become the
inductive `Value`; a raw item (`Mapping[str, Any]`) becomes an association
list; code that can raise returns `Except Unit`; the SQLite table
`hot_items_history` becomes a list of stored rows with a surrogate-id counter,
and the `INSERT ... ON CONFLICT(platform, url, scraped_date) DO UPDATE`
statement becomes `upsertRow`. Floats are modelled as exact rationals
(IEEE rounding is not modelled); Python string functions are modelled on the
ASCII whitespace set (the extra Unicode whitespace accepted by `str.strip`
and `\s` plays no role in any claim).
-/

/-- Python whitespace as used by `str.strip()` and the regex class `\s`,
restricted to the ASCII range: space, tab, newline, carriage return,
vertical tab, form feed. -/
def isPySpace (c : Char) : Bool :=
  c == ' ' || c == '\t' || c == '\n' || c == '\r' || c == '\x0B' || c == '\x0C'

/-- Strip `isPySpace` characters from both ends of a character list. -/
def pyStripL (l : List Char) : List Char :=
  ((l.dropWhile isPySpace).reverse.dropWhile isPySpace).reverse

/-- Models Python `s.strip()` (on the ASCII whitespace set). -/
def pyStrip (s : String) : String :=
  String.mk (pyStripL s.data)

/-- A loosely-typed Python value as it occurs in a raw scraped item:
`None`, a string, an `int`, a `float` (modelled as an exact rational),
or a list/tuple of values. -/
inductive Value where
  | vNone
  | vStr (s : String)
  | vInt (n : Int)
  | vFloat (q : Rat)
  | vList (xs : List Value)

/-- A raw item: a `Mapping[str, Any]`, modelled as an association list with
distinct keys (lookup takes the first binding). -/
def RawItem : Type := List (String × Value)

/-- Models `it[k]` presence: `dict.get(k)` without default, `none` when the
key is absent. -/
def dictGet (it : RawItem) (k : String) : Option Value :=
  List.lookup k it

/-- Models `it.get(k)`: `None` when the key is absent. -/
def dictGetOrNone (it : RawItem) (k : String) : Value :=
  (dictGet it k).getD .vNone

/-- Models `it.get(k, d)`: the default `d` is used only when the key is
absent, not when it is present and maps to `None`. -/
def dictGetD (it : RawItem) (k : String) (d : Value) : Value :=
  (dictGet it k).getD d

/-- Python truthiness of a value: `None`, `""`, `0`, `0.0` and `[]` are
falsy, everything else truthy. -/
def pyTruthy : Value → Bool
  | .vNone => false
  | .vStr s => !(s == "")
  | .vInt n => !(n == 0)
  | .vFloat q => !(q == 0)
  | .vList xs => !xs.isEmpty

/-- Models the expression `(v or "")`: Python `or` yields the left operand
when it is truthy and the right operand otherwise. -/
def pyOrEmptyStr (v : Value) : Value :=
  if pyTruthy v then v else .vStr ""

/-- Models calling `.strip()` on a value: defined for strings only; any other
value has no `strip` method and the call raises (`none`). -/
def pyStripMethod : Value → Option String
  | .vStr s => some (pyStrip s)
  | _ => none

/-- Models the expression `(it.get(k) or "").strip()` from `upsert_history`
lines 106-108: `some s` is the stripped string, `none` means the expression
raises (the value was truthy and not a string). -/
def getStripped (it : RawItem) (k : String) : Option String :=
  pyStripMethod (pyOrEmptyStr (dictGetOrNone it k))

/-- Models Python `str(x)` for the values arising here. The renderings of
floats and lists are placeholders (no claim depends on them): Python renders
floats in decimal and lists with brackets. -/
def pyStrAny : Value → String
  | .vNone => "None"
  | .vStr s => s
  | .vInt n => toString n
  | .vFloat q => toString q
  | .vList _ => "[...]"

def isAsciiDigit (c : Char) : Bool := '0' ≤ c && c ≤ '9'

def digitVal (c : Char) : Nat := c.toNat - 48

def digitsToNat (l : List Char) : Nat :=
  l.foldl (fun a c => 10 * a + digitVal c) 0

/-- Read an optional leading sign; returns (negative?, rest). -/
def readSign : List Char → Bool × List Char
  | '+' :: r => (false, r)
  | '-' :: r => (true, r)
  | l => (false, l)

/-- Models Python `int(s)` on an already-stripped character list: an optional
sign followed by a nonempty run of digits (underscore separators are not
modelled; no claim uses them). `none` means `int` raises `ValueError`. -/
def parseIntLit (l : List Char) : Option Int :=
  let p := readSign l
  if p.2 ≠ [] ∧ p.2.all isAsciiDigit then
    let n : Int := digitsToNat p.2
    some (if p.1 then -n else n)
  else none

/-- Models Python `float(s)` on an already-stripped character list: an
optional sign, a mantissa with at least one digit and at most one point, and
an optional exponent part. `inf`/`nan` forms and underscore separators are
not modelled (no claim uses them); the value is the exact rational the
literal denotes. -/
def parseFloatLit (l : List Char) : Option Rat :=
  let p := readSign l
  let ip := p.2.takeWhile isAsciiDigit
  let r1 := p.2.drop ip.length
  let fr : List Char × List Char :=
    match r1 with
    | '.' :: rest => (rest.takeWhile isAsciiDigit, rest.drop (rest.takeWhile isAsciiDigit).length)
    | _ => ([], r1)
  if ip = [] ∧ fr.1 = [] then none
  else
    let mant : Rat := mkRat (digitsToNat ip * 10 ^ fr.1.length + digitsToNat fr.1) (10 ^ fr.1.length)
    let signed : Rat → Rat := fun v => if p.1 then mkRat (-v.num) v.den else v
    match fr.2 with
    | [] => some (signed mant)
    | c :: rest =>
      if c = 'e' ∨ c = 'E' then
        let ep := readSign rest
        if ep.2 ≠ [] ∧ ep.2.all isAsciiDigit then
          let e := digitsToNat ep.2
          some (signed (if ep.1 then mkRat mant.num (mant.den * 10 ^ e)
                        else mkRat (mant.num * 10 ^ e) mant.den))
        else none
      else none

/-- Truncation toward zero: Python `int(f)` applied to a float
(the denominator of a `Rat` is positive). -/
def ratTrunc (q : Rat) : Int :=
  if 0 ≤ q.num then ((q.num.toNat / q.den : Nat) : Int)
  else -(((-q.num).toNat / q.den : Nat) : Int)

/-- Models Python `int(x)` on a value; `none` means the call raises. -/
def pyIntOfValue : Value → Option Int
  | .vInt n => some n
  | .vFloat q => some (ratTrunc q)
  | .vStr s => parseIntLit (pyStripL s.data)
  | _ => none

/-- Models Python `float(x)` on a value; `none` means the call raises. -/
def pyFloatOfValue : Value → Option Rat
  | .vFloat q => some q
  | .vInt n => some (mkRat n 1)
  | .vStr s => parseFloatLit (pyStripL s.data)
  | _ => none

/-- The guard `x is None or x == ""` of `_as_int`. -/
def isNoneOrEmptyStr : Value → Bool
  | .vNone => true
  | .vStr s => s == ""
  | _ => false

/-- `HotItemsHistoryDB._as_int` (storage.py lines 53-63): `None`/`""` give
`None`; otherwise try `int(x)`, then `int(float(x))`, each failure caught;
`none` is the stored SQL NULL. The function never raises: every exception of
either conversion is swallowed by the two `except` clauses. -/
def _as_int (x : Value) : Option Int :=
  if isNoneOrEmptyStr x then none
  else
    match pyIntOfValue x with
    | some n => some n
    | none =>
      match pyFloatOfValue x with
      | some q => some (ratTrunc q)
      | none => none

def isDigitOrDot (c : Char) : Bool := isAsciiDigit c || c == '.'

/-- Models `re.match(r"^\s*([\d\.]+)\s*(万|亿)?\s*$", s)`: on success, group 1
(the maximal digits-and-dots run) and the optional unit character. -/
def heatRegexMatch (s : List Char) : Option (List Char × Option Char) :=
  let r := s.dropWhile isPySpace
  let lit := r.takeWhile isDigitOrDot
  if lit = [] then none
  else
    let rest := (r.drop lit.length).dropWhile isPySpace
    match rest with
    | [] => some (lit, none)
    | c :: rest' =>
      if (c = '万' ∨ c = '亿') ∧ rest'.dropWhile isPySpace = [] then some (lit, some c)
      else none

/-- `WeiboHotSpider._parse_heat_value` (scraper/weibo.py lines 51-72) for a
string argument (the `num is None` guard returns `None` before `str(num)` for
`None` arguments). `.error ()` marks an uncaught exception: when the regex
matches, `float(m.group(1))` is called outside any `try`, and raises
`ValueError` when the matched run has more than one dot (e.g. `"."`). When
the regex does not match, `int(float(s))` is attempted with every exception
caught. -/
def _parse_heat_value (s0 : String) : Except Unit (Option Int) :=
  let s := pyStripL s0.data
  if s = [] then .ok none
  else
    match heatRegexMatch s with
    | some (lit, unit) =>
      match parseFloatLit lit with
      | none => .error ()
      | some v =>
        let v' : Rat :=
          match unit with
          | some c =>
            if c = '万' then mkRat (v.num * 10000) v.den
            else if c = '亿' then mkRat (v.num * 100000000) v.den
            else v
          | none => v
        .ok (some (ratTrunc v'))
    | none =>
      match parseFloatLit s with
      | some q => .ok (some (ratTrunc q))
      | none => .ok none

/-- One row of the table `hot_items_history` (init_db.py DDL), minus the
surrogate id. `extra_json` keeps the mapping that `json.dumps` would
serialize (`none` models the SQL NULL written when `extra` is empty). -/
structure Row where
  platform : String
  topic_key : Value
  title : String
  url : String
  image_url : Value
  excerpt : Value
  heat_text : Value
  heat_value : Option Int
  rank : Option Int
  tags_text : Option String
  scraped_at : String
  scraped_date : String
  extra_json : Option (List (String × Value))

/-- A stored row: the surrogate `id INTEGER PRIMARY KEY AUTOINCREMENT`
plus the payload columns. -/
structure StoredRow where
  id : Nat
  row : Row

/-- The table state: its rows and the next autoincrement id. -/
structure DB where
  rows : List StoredRow
  nextId : Nat

def emptyDB : DB := ⟨[], 1⟩

/-- The keyword arguments of `upsert_history` that route per-platform fields. -/
structure UpsertConfig where
  topic_key_field : Option String := none
  tags_join_from : Option String := none
  extra_fields : Option (List String) := none

/-- Python truthiness of an optional field name (`None` and `""` falsy). -/
def optFieldTruthy : Option String → Bool
  | none => false
  | some s => !(s == "")

/-- Models `s.split(" ")[0]`: the characters before the first space. -/
def splitSpaceHead (s : String) : String :=
  String.mk (s.data.takeWhile (fun c => !(c == ' ')))

/-- The `tags_text` computation of `upsert_history` lines 123-126. -/
def computeTagsText (cfg : UpsertConfig) (it : RawItem) : Option String :=
  if optFieldTruthy cfg.tags_join_from then
    match dictGet it (cfg.tags_join_from.getD "") with
    | some (.vList xs) =>
      let tags := (xs.map (fun x => pyStrip (pyStrAny x))).filter (fun t => !(t == ""))
      if tags.isEmpty then none else some (String.intercalate "|" tags)
    | _ => none
  else none

/-- The `topic_key` computation of `upsert_history` line 128. -/
def computeTopicKey (cfg : UpsertConfig) (it : RawItem) : Value :=
  if optFieldTruthy cfg.topic_key_field then dictGetOrNone it (cfg.topic_key_field.getD "")
  else .vNone

/-- The `extra` mapping of `upsert_history` lines 130-133. -/
def computeExtra (cfg : UpsertConfig) (it : RawItem) : List (String × Value) :=
  (cfg.extra_fields.getD []).filterMap (fun k => (dictGet it k).map (fun v => (k, v)))

/-- The per-item body of the `for it in items` loop of `upsert_history`
(storage.py lines 105-139): `.ok none` is the silent `continue` for an item
whose stripped title or url is empty, `.ok (some r)` the parameter row
appended to `rows`, `.error ()` an uncaught exception (the `.strip()` calls
on lines 106-108 run before the `continue` check and raise on a truthy
non-string value). `now` stands for `datetime.now().strftime("%Y-%m-%d
%H:%M:%S")`, the wall-clock instant formatted at second precision. -/
def normalizeItem (platform : String) (cfg : UpsertConfig) (now : String) (it : RawItem) :
    Except Unit (Option Row) :=
  match getStripped it "title", getStripped it "url", getStripped it "scraped_at" with
  | some title, some url, some sa0 =>
    if title = "" ∨ url = "" then .ok none
    else
      let scraped_at := if sa0 = "" then now else sa0
      let extra := computeExtra cfg it
      .ok (some {
        platform := platform
        topic_key := computeTopicKey cfg it
        title := title
        url := url
        image_url := dictGetOrNone it "image_url"
        excerpt := dictGetOrNone it "excerpt"
        heat_text := dictGetOrNone it "heat_text"
        heat_value := _as_int (dictGetD it "heat_value" (dictGetOrNone it "num"))
        rank := _as_int (dictGetOrNone it "rank")
        tags_text := computeTagsText cfg it
        scraped_at := scraped_at
        scraped_date := splitSpaceHead scraped_at
        extra_json := if extra.isEmpty then none else some extra })
  | _, _, _ => .error ()

/-- The whole row-building loop: the parameter rows of the batch in item
order, or the first uncaught exception. -/
def buildRows (platform : String) (cfg : UpsertConfig) (now : String) :
    List RawItem → Except Unit (List Row)
  | [] => .ok []
  | it :: rest =>
    match normalizeItem platform cfg now it with
    | .error e => .error e
    | .ok none => buildRows platform cfg now rest
    | .ok (some r) =>
      match buildRows platform cfg now rest with
      | .error e => .error e
      | .ok rs => .ok (r :: rs)

/-- The UNIQUE key of the table: `(platform, url, scraped_date)`. -/
def rowKey (r : Row) : String × String × String :=
  (r.platform, r.url, r.scraped_date)

def keyEq (a b : Row) : Bool :=
  a.platform == b.platform && a.url == b.url && a.scraped_date == b.scraped_date

/-- The `DO UPDATE SET` clause of the upsert statement: overwrite exactly
`topic_key, title, image_url, excerpt, heat_text, heat_value, rank,
tags_text, scraped_at, extra_json` with the excluded row's values; `id`,
`platform`, `url` and `scraped_date` are not in the SET list and keep the
stored row's values. -/
def applyUpdate (s : StoredRow) (r : Row) : StoredRow :=
  ⟨s.id, { r with
            platform := s.row.platform
            url := s.row.url
            scraped_date := s.row.scraped_date }⟩

/-- One execution of the `INSERT INTO hot_items_history ... ON
CONFLICT(platform, url, scraped_date) DO UPDATE SET ...` statement. The
statement-level upsert clause governs conflict resolution (the table's `ON
CONFLICT REPLACE` default applies only to inserts without an upsert clause):
a row whose key is present updates that row in place, otherwise a new row is
appended with the next autoincrement id. -/
def upsertRow (db : DB) (r : Row) : DB :=
  if db.rows.any (fun s => keyEq s.row r) then
    { db with rows := db.rows.map (fun s => if keyEq s.row r then applyUpdate s r else s) }
  else
    { rows := db.rows ++ [⟨db.nextId, r⟩], nextId := db.nextId + 1 }

/-- `HotItemsHistoryDB.upsert_history` (storage.py lines 71-146): build the
parameter rows, return 0 on an empty batch, otherwise `executemany` the
upsert statement over them in order and `commit`; the returned count is the
cursor's `rowcount` (one affected row per parameter row). `.error ()`
propagates an uncaught exception from the build loop, in which case nothing
was written. -/
def upsert_history (db : DB) (platform : String) (items : List RawItem)
    (cfg : UpsertConfig) (now : String) : Except Unit (DB × Nat) :=
  match buildRows platform cfg now items with
  | .error e => .error e
  | .ok rows =>
    if rows.isEmpty then .ok (db, 0)
    else .ok (rows.foldl upsertRow db, rows.length)

/-- One call of `upsert_history` as the orchestrator issues it. -/
structure Call where
  platform : String
  items : List RawItem
  cfg : UpsertConfig
  now : String

/-- The table after one call: on an uncaught exception nothing was committed
and the table is unchanged. -/
def runCall (db : DB) (c : Call) : DB :=
  match upsert_history db c.platform c.items c.cfg c.now with
  | .ok p => p.1
  | .error _ => db

def runCalls (db : DB) (cs : List Call) : DB :=
  cs.foldl runCall db

/-- The table's UNIQUE(platform, url, scraped_date) invariant: no two stored
rows share the key triple. -/
def UniqueKeys (db : DB) : Prop :=
  db.rows.Pairwise (fun a b => rowKey a.row ≠ rowKey b.row)

/-- The ten mutable fields of stored row `s` equal those of record `r`
(the fields the `DO UPDATE SET` clause overwrites). -/
def MutEq (s : StoredRow) (r : Row) : Prop :=
  s.row.topic_key = r.topic_key ∧ s.row.title = r.title ∧
  s.row.image_url = r.image_url ∧ s.row.excerpt = r.excerpt ∧
  s.row.heat_text = r.heat_text ∧ s.row.heat_value = r.heat_value ∧
  s.row.rank = r.rank ∧ s.row.tags_text = r.tags_text ∧
  s.row.scraped_at = r.scraped_at ∧ s.row.extra_json = r.extra_json

/-- The durable (committed) table after `upsert_history` runs against a
storage layer that may fault: the batch executes inside the connection's
implicit transaction via one `executemany`, and `commit()` runs only after
every row statement succeeded. A fault while executing row `k` of the batch
aborts the statement before `commit`, so the uncommitted changes are rolled
back and the durable table is the pre-batch one. Per-record skips during row
building are not storage faults: they merely leave rows out of the batch. -/
def upsert_history_durable (db : DB) (platform : String) (items : List RawItem)
    (cfg : UpsertConfig) (now : String) (faultAt : Option Nat) : DB :=
  match buildRows platform cfg now items with
  | .error _ => db
  | .ok rows =>
    match faultAt with
    | some k => if k < rows.length then db else rows.foldl upsertRow db
    | none => rows.foldl upsertRow db

/-- SQLite's default `LIKE` character comparison folds case for ASCII
characters only (`sqlite3UpperToLower`, applied when both code points are
below 0x80; comparing a sub-0x80 with a non-ASCII code point never matches
unless equal, which this fold also gives). -/
def likeFoldChar (c : Char) : Char :=
  if c.val < 0x80 then c.toLower else c

/-- SQLite `LIKE` matching with `ESCAPE '\'` (the form used by
`count_history` and `query_history`): `%` matches any sequence (tried at
every suffix of the text, as `patternCompare` does), `_` any single
character, `\x` the character `x` literally, and any other pattern character
matches case-folded. A trailing `\` matches nothing. -/
def likeMatch : List Char → List Char → Bool
  | [], t => t.isEmpty
  | a :: p, t =>
    if a = '%' then
      t.tails.any (fun s => likeMatch p s)
    else if a = '_' then
      match t with
      | [] => false
      | _ :: t' => likeMatch p t'
    else if a = '\\' then
      match p with
      | [] => false
      | e :: p' =>
        match t with
        | [] => false
        | d :: t' => likeFoldChar e == likeFoldChar d && likeMatch p' t'
    else
      match t with
      | [] => false
      | d :: t' => likeFoldChar a == likeFoldChar d && likeMatch p t'

/-- Models Python `s.replace(needle, repl)` for a one-character needle. -/
def pyReplaceChar (needle : Char) (repl : List Char) : List Char → List Char
  | [] => []
  | c :: rest => (if c == needle then repl else [c]) ++ pyReplaceChar needle repl rest

/-- The three chained replaces of `_escape_like` on a character list:
`replace("\\", "\\\\")`, then `replace("%", "\\%")`, then `replace("_", "\\_")`. -/
def escapeL (l : List Char) : List Char :=
  pyReplaceChar '_' ['\\', '_'] (pyReplaceChar '%' ['\\', '%'] (pyReplaceChar '\\' ['\\', '\\'] l))

/-- `HotItemsHistoryDB._escape_like` (storage.py lines 65-68):
`s.replace("\\", "\\\\").replace("%", "\\%").replace("_", "\\_")`. -/
def _escape_like (s : String) : List Char :=
  escapeL s.data

/-- What `_escape_like` does to one character. -/
def escChar (c : Char) : List Char :=
  if c = '\\' ∨ c = '%' ∨ c = '_' then ['\\', c] else [c]

/-- The LIKE pattern `f"%{self._escape_like(keyword)}%"` built for a
truthy keyword. -/
def mkLikePattern (kw : String) : List Char :=
  '%' :: (_escape_like kw ++ ['%'])

/-- `HotItemsHistoryDB._ALLOWED_ORDERS` (storage.py lines 19-25). -/
def _ALLOWED_ORDERS : List String :=
  ["scraped_at DESC", "scraped_at ASC",
   "scraped_date DESC", "scraped_date ASC",
   "heat_value DESC", "heat_value ASC",
   "rank ASC", "rank DESC",
   "id DESC", "id ASC"]

/-- The order-by validation of `query_history` lines 201-202: a string not
in the allow-list silently becomes `"scraped_at DESC"`. -/
def resolveOrder (order_by : String) : String :=
  if order_by ∈ _ALLOWED_ORDERS then order_by else "scraped_at DESC"

/-- SQLite comparison of a nullable integer column: NULL sorts before every
number in ascending order. -/
def optIntLe : Option Int → Option Int → Bool
  | none, _ => true
  | some _, none => false
  | some a, some b => decide (a ≤ b)

/-- The total preorder denoted by one allow-listed `ORDER BY` clause
(string comparison is the codepoint order, matching SQLite's BINARY
collation on UTF-8 text). -/
def orderLe (ob : String) (a b : StoredRow) : Bool :=
  if ob = "scraped_at ASC" then decide (a.row.scraped_at ≤ b.row.scraped_at)
  else if ob = "scraped_at DESC" then decide (b.row.scraped_at ≤ a.row.scraped_at)
  else if ob = "scraped_date ASC" then decide (a.row.scraped_date ≤ b.row.scraped_date)
  else if ob = "scraped_date DESC" then decide (b.row.scraped_date ≤ a.row.scraped_date)
  else if ob = "heat_value ASC" then optIntLe a.row.heat_value b.row.heat_value
  else if ob = "heat_value DESC" then optIntLe b.row.heat_value a.row.heat_value
  else if ob = "rank ASC" then optIntLe a.row.rank b.row.rank
  else if ob = "rank DESC" then optIntLe b.row.rank a.row.rank
  else if ob = "id ASC" then decide (a.id ≤ b.id)
  else if ob = "id DESC" then decide (b.id ≤ a.id)
  else decide (b.row.scraped_at ≤ a.row.scraped_at)

/-- The ordering relation a clause denotes, as a Prop for sorting lemmas. -/
def ordRel (ob : String) (a b : StoredRow) : Prop :=
  orderLe ob a b = true

instance (ob : String) : DecidableRel (ordRel ob) := fun a b =>
  inferInstanceAs (Decidable (orderLe ob a b = true))

/-- A column LIKE-matched against the keyword pattern: a stored NULL never
matches (`NULL LIKE p` is NULL); stored text matches per `likeMatch`
(non-text stored values, which SQLite would cast to text, are out of scope —
no claim concerns them). -/
def likeValue (pat : List Char) : Value → Bool
  | .vStr s => likeMatch pat s.data
  | _ => false

/-- The keyword predicate `(title LIKE ? ESCAPE '\' OR excerpt LIKE ?
ESCAPE '\' OR url LIKE ? ESCAPE '\')` added by `count_history` and
`query_history` when `keyword` is truthy. -/
def keywordFilter (keyword : Option String) (s : StoredRow) : Bool :=
  match keyword with
  | none => true
  | some k =>
    if k = "" then true
    else
      let pat := mkLikePattern k
      likeMatch pat s.row.title.data || likeValue pat s.row.excerpt ||
        likeMatch pat s.row.url.data

/-- The `platform IN (...)` predicate, added when `platforms` is truthy. -/
def platformFilter (platforms : Option (List String)) (s : StoredRow) : Bool :=
  match platforms with
  | none => true
  | some ps => if ps.isEmpty then true else ps.contains s.row.platform

/-- The `scraped_date >= ?` predicate, added when `date_from` is truthy. -/
def dateFromFilter (date_from : Option String) (s : StoredRow) : Bool :=
  match date_from with
  | none => true
  | some d => if d = "" then true else decide (d ≤ s.row.scraped_date)

/-- The `scraped_date <= ?` predicate, added when `date_to` is truthy. -/
def dateToFilter (date_to : Option String) (s : StoredRow) : Bool :=
  match date_to with
  | none => true
  | some d => if d = "" then true else decide (s.row.scraped_date ≤ d)

/-- The conjunction of WHERE predicates shared by `count_history` and
`query_history` (the Python builds the same clause list in both). -/
def rowFilter (keyword : Option String) (platforms : Option (List String))
    (date_from date_to : Option String) (s : StoredRow) : Bool :=
  platformFilter platforms s && keywordFilter keyword s &&
    dateFromFilter date_from s && dateToFilter date_to s

def filterRows (db : DB) (keyword : Option String) (platforms : Option (List String))
    (date_from date_to : Option String) : List StoredRow :=
  db.rows.filter (rowFilter keyword platforms date_from date_to)

/-- `HotItemsHistoryDB.count_history` (storage.py lines 155-184). -/
def count_history (db : DB) (keyword : Option String) (platforms : Option (List String))
    (date_from date_to : Option String) : Nat :=
  (filterRows db keyword platforms date_from date_to).length

/-- `HotItemsHistoryDB.query_history` (storage.py lines 186-234): validate
`order_by` against the allow-list (anything else falls back to
`"scraped_at DESC"`), filter, sort by the resolved clause (`ORDER BY`
fixes only the key order; a stable sort refines the engine's unspecified
tie order), then apply `LIMIT ? OFFSET ?` with SQLite semantics (a negative
limit means no limit, a negative offset means zero). -/
def query_history (db : DB) (keyword : Option String) (platforms : Option (List String))
    (date_from date_to : Option String) (order_by : String) (limit offset : Int) :
    List StoredRow :=
  let ob := resolveOrder order_by
  let sorted := List.insertionSort (ordRel ob) (filterRows db keyword platforms date_from date_to)
  let page := sorted.drop offset.toNat
  if limit < 0 then page else page.take limit.toNat



/-! ## Concrete rows and items used by witnesses and counterexamples -/

def rowX : Row :=
  { platform := "baidu", topic_key := .vNone, title := "X", url := "http://a",
    image_url := .vNone, excerpt := .vNone, heat_text := .vNone,
    heat_value := none, rank := none, tags_text := none,
    scraped_at := "2025-01-01 10:00:00", scraped_date := "2025-01-01",
    extra_json := none }

def rowY : Row :=
  { platform := "baidu", topic_key := .vNone, title := "Y", url := "http://a",
    image_url := .vNone, excerpt := .vNone, heat_text := .vNone,
    heat_value := some 7, rank := some 1, tags_text := none,
    scraped_at := "2025-01-01 11:00:00", scraped_date := "2025-01-01",
    extra_json := none }

def storedX : StoredRow := ⟨1, rowX⟩

def dbOne : DB := ⟨[storedX], 2⟩

def itemsWB : List RawItem :=
  [[("title", .vStr "X"), ("url", .vStr "http://a"), ("scraped_at", .vStr "2025-01-01 10:00:00")],
   [("title", .vStr ""), ("url", .vStr "http://b"), ("scraped_at", .vStr "2025-01-01 10:00:00")]]

def itemBadType : RawItem :=
  [("title", .vStr ""), ("url", .vStr "u"), ("scraped_at", .vInt 5)]

def itemA : RawItem :=
  [("title", .vStr "X"), ("url", .vStr "http://a"), ("scraped_at", .vStr "2025-01-01 10:00:00")]

def rowA : Row :=
  { platform := "baidu", topic_key := .vNone, title := "X", url := "http://a",
    image_url := .vNone, excerpt := .vNone, heat_text := .vNone,
    heat_value := none, rank := none, tags_text := none,
    scraped_at := "2025-01-01 10:00:00", scraped_date := "2025-01-01",
    extra_json := none }

def itemBadHeat : RawItem :=
  [("title", .vStr "t"), ("url", .vStr "u"), ("heat_value", .vStr "xx"),
   ("rank", .vStr "zz"), ("scraped_at", .vStr "2025-01-01 10:00:00")]

def rowBadHeat : Row :=
  { platform := "p", topic_key := .vNone, title := "t", url := "u",
    image_url := .vNone, excerpt := .vNone, heat_text := .vNone,
    heat_value := none, rank := none, tags_text := none,
    scraped_at := "2025-01-01 10:00:00", scraped_date := "2025-01-01",
    extra_json := none }

def item10 : RawItem :=
  [("title", .vStr "t"), ("url", .vStr "u"), ("scraped_at", .vStr "2025-01-01 10:00:00"),
   ("heat_value", .vStr "abc"), ("num", .vStr "42")]

def row10 : Row :=
  { platform := "p", topic_key := .vNone, title := "t", url := "u",
    image_url := .vNone, excerpt := .vNone, heat_text := .vNone,
    heat_value := none, rank := none, tags_text := none,
    scraped_at := "2025-01-01 10:00:00", scraped_date := "2025-01-01",
    extra_json := none }

def rowPct : Row :=
  { platform := "p", topic_key := .vNone, title := "a 50% off", url := "u",
    image_url := .vNone, excerpt := .vNone, heat_text := .vNone,
    heat_value := none, rank := none, tags_text := none,
    scraped_at := "2025-01-01 00:00:00", scraped_date := "2025-01-01",
    extra_json := none }

def storedPct : StoredRow := ⟨1, rowPct⟩


/-! ## Lemmas about the upsert write path -/

theorem keyEq_iff (a b : Row) : keyEq a b = true ↔ rowKey a = rowKey b := by
  simp [keyEq, rowKey, Prod.ext_iff, and_assoc]

theorem rowKey_applyUpdate (s : StoredRow) (r : Row) :
    rowKey (applyUpdate s r).row = rowKey s.row := rfl

theorem mutEq_applyUpdate (s : StoredRow) (r : Row) : MutEq (applyUpdate s r) r :=
  ⟨rfl, rfl, rfl, rfl, rfl, rfl, rfl, rfl, rfl, rfl⟩

theorem mutEq_mk (i : Nat) (r : Row) : MutEq ⟨i, r⟩ r :=
  ⟨rfl, rfl, rfl, rfl, rfl, rfl, rfl, rfl, rfl, rfl⟩

theorem rowKey_upsertMapFun (r : Row) (s : StoredRow) :
    rowKey (if keyEq s.row r then applyUpdate s r else s).row = rowKey s.row := by
  split
  · rfl
  · rfl

theorem uniqueKeys_upsertRow {db : DB} (r : Row) (h : UniqueKeys db) :
    UniqueKeys (upsertRow db r) := by
  unfold UniqueKeys at *
  unfold upsertRow
  split
  · show List.Pairwise _ (db.rows.map fun s => if keyEq s.row r then applyUpdate s r else s)
    rw [List.pairwise_map]
    refine h.imp ?_
    intro a b hab
    rw [rowKey_upsertMapFun, rowKey_upsertMapFun]
    exact hab
  · next hno =>
    show List.Pairwise _ (db.rows ++ [⟨db.nextId, r⟩])
    rw [List.pairwise_append]
    refine ⟨h, List.pairwise_singleton _ _, ?_⟩
    intro a ha b hb
    simp only [List.mem_singleton] at hb
    subst hb
    intro hk
    exact hno (List.any_eq_true.mpr ⟨a, ha, (keyEq_iff a.row r).mpr hk⟩)

theorem exists_key_after_upsertRow (db : DB) (r : Row) :
    ∃ s ∈ (upsertRow db r).rows, rowKey s.row = rowKey r ∧ MutEq s r := by
  unfold upsertRow
  split
  · next hyes =>
    obtain ⟨s₀, hs₀, hq⟩ := List.any_eq_true.mp hyes
    refine ⟨applyUpdate s₀ r, ?_, ?_, mutEq_applyUpdate s₀ r⟩
    · show _ ∈ db.rows.map fun s => if keyEq s.row r then applyUpdate s r else s
      exact List.mem_map.mpr ⟨s₀, hs₀, by simp [hq]⟩
    · rw [rowKey_applyUpdate]
      exact (keyEq_iff s₀.row r).mp hq
  · exact ⟨⟨db.nextId, r⟩, List.mem_append_right _ (List.mem_singleton_self _),
      rfl, mutEq_mk _ r⟩

theorem key_rows_after_upsertRow (db : DB) (r : Row) :
    ∀ s ∈ (upsertRow db r).rows, rowKey s.row = rowKey r → MutEq s r := by
  intro s hs hk
  unfold upsertRow at hs
  split at hs
  · simp only [List.mem_map] at hs
    obtain ⟨s₀, hs₀, hfs⟩ := hs
    by_cases hq : keyEq s₀.row r
    · rw [if_pos hq] at hfs
      subst hfs
      exact mutEq_applyUpdate s₀ r
    · rw [if_neg hq] at hfs
      subst hfs
      exact absurd ((keyEq_iff s₀.row r).mpr hk) hq
  · next hno =>
    rcases List.mem_append.mp hs with hold | hnew
    · exact absurd (List.any_eq_true.mpr ⟨s, hold, (keyEq_iff s.row r).mpr hk⟩) hno
    · simp only [List.mem_singleton] at hnew
      subst hnew
      exact mutEq_mk _ r

theorem mem_upsertRow_of_ne (db : DB) (x : Row) {s : StoredRow}
    (hs : s ∈ db.rows) (hne : rowKey s.row ≠ rowKey x) : s ∈ (upsertRow db x).rows := by
  unfold upsertRow
  split
  · show _ ∈ db.rows.map fun t => if keyEq t.row x then applyUpdate t x else t
    refine List.mem_map.mpr ⟨s, hs, ?_⟩
    have hq : ¬(keyEq s.row x = true) := fun hq => hne ((keyEq_iff s.row x).mp hq)
    simp [hq]
  · exact List.mem_append_left _ hs

theorem mem_db_of_upsertRow_ne (db : DB) (x : Row) (k : String × String × String)
    (hne : rowKey x ≠ k) : ∀ s ∈ (upsertRow db x).rows, rowKey s.row = k → s ∈ db.rows := by
  intro s hs hk
  unfold upsertRow at hs
  split at hs
  · simp only [List.mem_map] at hs
    obtain ⟨s₀, hs₀, hfs⟩ := hs
    by_cases hq : keyEq s₀.row x
    · rw [if_pos hq] at hfs
      subst hfs
      rw [rowKey_applyUpdate] at hk
      exact absurd ((keyEq_iff s₀.row x).mp hq ▸ hk) hne
    · rw [if_neg hq] at hfs
      subst hfs
      exact hs₀
  · rcases List.mem_append.mp hs with hold | hnew
    · exact hold
    · simp only [List.mem_singleton] at hnew
      subst hnew
      exact absurd hk hne

theorem uniqueKeys_foldl_upsertRow (rows : List Row) :
    ∀ db : DB, UniqueKeys db → UniqueKeys (rows.foldl upsertRow db) := by
  induction rows with
  | nil => exact fun _ h => h
  | cons r rs ih => exact fun db h => ih (upsertRow db r) (uniqueKeys_upsertRow r h)

theorem foldl_mem_of_ne (k : String × String × String) (rows : List Row)
    (hrows : ∀ x ∈ rows, rowKey x ≠ k) :
    ∀ (db : DB) (s : StoredRow), s ∈ db.rows → rowKey s.row = k →
      s ∈ (rows.foldl upsertRow db).rows := by
  induction rows with
  | nil => exact fun _ s hs _ => hs
  | cons x rs ih =>
    intro db s hs hk
    have hx : rowKey x ≠ k := hrows x (List.mem_cons_self x rs)
    have hs' : s ∈ (upsertRow db x).rows :=
      mem_upsertRow_of_ne db x hs (fun he => hx (he ▸ hk))
    exact ih (fun y hy => hrows y (List.mem_cons_of_mem x hy)) (upsertRow db x) s hs' hk

theorem foldl_key_mut (k : String × String × String) (r2 : Row) (rows : List Row)
    (hrows : ∀ x ∈ rows, rowKey x ≠ k) :
    ∀ db : DB, (∀ s ∈ db.rows, rowKey s.row = k → MutEq s r2) →
      ∀ s ∈ (rows.foldl upsertRow db).rows, rowKey s.row = k → MutEq s r2 := by
  induction rows with
  | nil => exact fun _ h => h
  | cons x rs ih =>
    intro db h
    have hx : rowKey x ≠ k := hrows x (List.mem_cons_self x rs)
    refine ih (fun y hy => hrows y (List.mem_cons_of_mem x hy)) (upsertRow db x) ?_
    intro s hs hk
    exact h s (mem_db_of_upsertRow_ne db x k hx s hs hk) hk

theorem uniqueKeys_runCall {db : DB} (c : Call) (h : UniqueKeys db) :
    UniqueKeys (runCall db c) := by
  unfold runCall upsert_history
  cases hb : buildRows c.platform c.cfg c.now c.items with
  | error e => simp only [hb]; exact h
  | ok rows =>
    simp only [hb]
    by_cases he : rows.isEmpty
    · simp only [he, if_true]
      exact h
    · simp only [he, if_false]
      exact uniqueKeys_foldl_upsertRow rows db h

theorem uniqueKeys_runCalls (cs : List Call) :
    ∀ db : DB, UniqueKeys db → UniqueKeys (runCalls db cs) := by
  induction cs with
  | nil => exact fun _ h => h
  | cons c cs ih => exact fun db h => ih (runCall db c) (uniqueKeys_runCall c h)

theorem uniqueKeys_empty : UniqueKeys emptyDB := List.Pairwise.nil

/-- C1: over every sequence of `upsert_history` calls the table keeps at most
one row per (platform, url, scraped_date) triple; and an upserted record `r`
whose key triple matches a stored row `s` turns `s` into `applyUpdate s r` —
same surrogate id, every mutable field (topic_key, title, image_url, excerpt,
heat_text, heat_value, rank, tags_text, scraped_at, extra_json) overwritten
with the new record's values — without changing the number of rows, i.e. no
duplicate row is inserted. -/
theorem upsert_unique_key_update_in_place :
    (∀ cs : List Call, UniqueKeys (runCalls emptyDB cs)) ∧
    (∀ (db : DB) (r : Row) (s : StoredRow), s ∈ db.rows → rowKey s.row = rowKey r →
      (upsertRow db r).rows.length = db.rows.length ∧
      applyUpdate s r ∈ (upsertRow db r).rows ∧
      (applyUpdate s r).id = s.id ∧ MutEq (applyUpdate s r) r) := by
  constructor
  · exact fun cs => uniqueKeys_runCalls cs emptyDB uniqueKeys_empty
  · intro db r s hs hk
    have hq : keyEq s.row r = true := (keyEq_iff s.row r).mpr hk
    have hany : (db.rows.any fun t => keyEq t.row r) = true :=
      List.any_eq_true.mpr ⟨s, hs, hq⟩
    refine ⟨?_, ?_, rfl, mutEq_applyUpdate s r⟩
    · unfold upsertRow
      rw [if_pos hany]
      exact List.length_map _ _
    · unfold upsertRow
      rw [if_pos hany]
      show _ ∈ db.rows.map fun t => if keyEq t.row r then applyUpdate t r else t
      exact List.mem_map.mpr ⟨s, hs, by simp [hq]⟩

theorem upsert_unique_key_update_in_place_witness :
    (upsertRow dbOne rowY).rows.length = dbOne.rows.length ∧
    applyUpdate storedX rowY ∈ (upsertRow dbOne rowY).rows ∧
    (applyUpdate storedX rowY).id = storedX.id ∧ MutEq (applyUpdate storedX rowY) rowY :=
  upsert_unique_key_update_in_place.2 dbOne rowY storedX (List.mem_singleton_self _) rfl

/-- C9: when a batch contains two or more records with the same key triple,
the one occurring last in iteration order determines the stored mutable
fields for that key — last-write-wins inside one `executemany` batch (the
rows of the batch execute sequentially, each statement seeing the previous
ones' effects). -/
theorem batch_last_write_wins (db : DB) (early : List Row) (r2 : Row) (late : List Row)
    (_hdup : ∃ r1 ∈ early, rowKey r1 = rowKey r2)
    (hlate : ∀ x ∈ late, rowKey x ≠ rowKey r2) :
    (∃ s ∈ ((early ++ r2 :: late).foldl upsertRow db).rows,
        rowKey s.row = rowKey r2 ∧ MutEq s r2) ∧
    (∀ s ∈ ((early ++ r2 :: late).foldl upsertRow db).rows,
        rowKey s.row = rowKey r2 → MutEq s r2) := by
  rw [List.foldl_append, List.foldl_cons]
  constructor
  · obtain ⟨s, hs, hk, hm⟩ := exists_key_after_upsertRow (early.foldl upsertRow db) r2
    exact ⟨s, foldl_mem_of_ne (rowKey r2) late hlate _ s hs hk, hk, hm⟩
  · exact foldl_key_mut (rowKey r2) r2 late hlate _
      (key_rows_after_upsertRow (early.foldl upsertRow db) r2)

theorem batch_last_write_wins_witness :
    (∃ s ∈ (([rowX] ++ rowY :: []).foldl upsertRow emptyDB).rows,
        rowKey s.row = rowKey rowY ∧ MutEq s rowY) ∧
    (∀ s ∈ (([rowX] ++ rowY :: []).foldl upsertRow emptyDB).rows,
        rowKey s.row = rowKey rowY → MutEq s rowY) :=
  batch_last_write_wins emptyDB [rowX] rowY []
    ⟨rowX, List.mem_singleton_self _, rfl⟩
    (fun x hx => absurd hx (List.not_mem_nil x))

/-- C8: each batch commits atomically. Once the batch's surviving rows are
built (per-record gate rejections and coercion failures only shrink or keep
the batch; they are not storage faults and roll back nothing), the durable
table is either the pre-batch table (a storage fault hit some row, `commit`
never ran, the transaction rolled back) or the table with every surviving
record applied; a fault-free run commits the whole batch. -/
theorem upsert_batch_atomic (db : DB) (platform : String) (items : List RawItem)
    (cfg : UpsertConfig) (now : String) (faultAt : Option Nat) (rows : List Row)
    (h : buildRows platform cfg now items = .ok rows) :
    (upsert_history_durable db platform items cfg now faultAt = db ∨
      upsert_history_durable db platform items cfg now faultAt = rows.foldl upsertRow db) ∧
    (faultAt = none →
      upsert_history_durable db platform items cfg now faultAt = rows.foldl upsertRow db) := by
  unfold upsert_history_durable
  rw [h]
  cases faultAt with
  | none => exact ⟨Or.inr rfl, fun _ => rfl⟩
  | some k =>
    constructor
    · by_cases hk : k < rows.length
      · refine Or.inl ?_
        show (if k < rows.length then db else rows.foldl upsertRow db) = db
        rw [if_pos hk]
      · refine Or.inr ?_
        show (if k < rows.length then db else rows.foldl upsertRow db) = rows.foldl upsertRow db
        rw [if_neg hk]
    · intro hc
      exact absurd hc (by simp)

theorem upsert_batch_atomic_witness :
    (upsert_history_durable emptyDB "baidu" itemsWB {} "2025-01-02 00:00:00" (some 0) = emptyDB ∨
      upsert_history_durable emptyDB "baidu" itemsWB {} "2025-01-02 00:00:00" (some 0) =
        [rowX].foldl upsertRow emptyDB) ∧
    (some 0 = none →
      upsert_history_durable emptyDB "baidu" itemsWB {} "2025-01-02 00:00:00" (some 0) =
        [rowX].foldl upsertRow emptyDB) :=
  upsert_batch_atomic emptyDB "baidu" itemsWB {} "2025-01-02 00:00:00" (some 0) [rowX] rfl

/-! ## Lemmas about the row normalizer -/

theorem normalizeItem_fields (platform : String) (cfg : UpsertConfig) (now : String)
    (it : RawItem) (r : Row) (h : normalizeItem platform cfg now it = .ok (some r)) :
    r.title ≠ "" ∧ r.url ≠ "" ∧
    r.scraped_date = splitSpaceHead r.scraped_at ∧
    r.heat_value = _as_int (dictGetD it "heat_value" (dictGetOrNone it "num")) ∧
    r.rank = _as_int (dictGetOrNone it "rank") ∧
    (getStripped it "scraped_at" = some "" → r.scraped_at = now) ∧
    (∀ sa, getStripped it "scraped_at" = some sa → sa ≠ "" → r.scraped_at = sa) := by
  cases e1 : getStripped it "title" with
  | none => rw [normalizeItem, e1] at h; simp at h
  | some t =>
    cases e2 : getStripped it "url" with
    | none => rw [normalizeItem, e1, e2] at h; simp at h
    | some u =>
      cases e3 : getStripped it "scraped_at" with
      | none => rw [normalizeItem, e1, e2, e3] at h; simp at h
      | some sa0 =>
        simp only [normalizeItem, e1, e2, e3] at h
        split at h
        · simp at h
        · next hcond =>
          push_neg at hcond
          simp only [Except.ok.injEq, Option.some.injEq] at h
          subst h
          refine ⟨hcond.1, hcond.2, rfl, rfl, rfl, ?_, ?_⟩
          · intro hsa
            injection hsa with hsa
            show (if sa0 = "" then now else sa0) = now
            rw [if_pos hsa]
          · intro sa hsa hne
            injection hsa with hsa
            subst hsa
            show (if sa0 = "" then now else sa0) = sa0
            rw [if_neg hne]

theorem buildRows_mem (platform : String) (cfg : UpsertConfig) (now : String) :
    ∀ (items : List RawItem) (rows : List Row), buildRows platform cfg now items = .ok rows →
      ∀ r ∈ rows, ∃ it, normalizeItem platform cfg now it = .ok (some r) := by
  intro items
  induction items with
  | nil =>
    intro rows h r hr
    simp only [buildRows, Except.ok.injEq] at h
    subst h
    exact absurd hr (List.not_mem_nil r)
  | cons it rest ih =>
    intro rows h r hr
    rw [buildRows] at h
    cases hn : normalizeItem platform cfg now it with
    | error e => rw [hn] at h; simp at h
    | ok o =>
      rw [hn] at h
      cases o with
      | none => exact ih rows h r hr
      | some r₀ =>
        cases hb : buildRows platform cfg now rest with
        | error e => rw [hb] at h; simp at h
        | ok rs =>
          rw [hb] at h
          simp only [Except.ok.injEq] at h
          subst h
          rcases List.mem_cons.mp hr with hr0 | hrs
          · subst hr0
            exact ⟨it, hn⟩
          · exact ih rs hb r hrs

/-- C2 counterexample: an item whose trimmed title is empty is not always
silently skipped with no error — when another field that the loop also
strips before the gate check (here `scraped_at`) holds a truthy non-string
value, the call raises (`(5).strip()` is an `AttributeError`) instead of
skipping. -/
theorem required_field_gate_cex :
    getStripped itemBadType "title" = some "" ∧
    normalizeItem "weibo" {} "2025-01-01 00:00:00" itemBadType = .error () :=
  ⟨rfl, rfl⟩

/-- C2 (amended): provided the item's title, url and scraped_at values are
each absent, falsy or a string (so that the `(... or "").strip()`
expressions are defined), an item whose trimmed title or url is empty is
silently skipped — no row, no error; and unconditionally no stored record
ever has an empty title or url. -/
theorem required_field_gate :
    (∀ (platform : String) (cfg : UpsertConfig) (now : String) (it : RawItem) (t u sa : String),
      getStripped it "title" = some t → getStripped it "url" = some u →
      getStripped it "scraped_at" = some sa → (t = "" ∨ u = "") →
      normalizeItem platform cfg now it = .ok none) ∧
    (∀ (platform : String) (cfg : UpsertConfig) (now : String) (items : List RawItem)
        (rows : List Row), buildRows platform cfg now items = .ok rows →
      ∀ r ∈ rows, r.title ≠ "" ∧ r.url ≠ "") := by
  constructor
  · intro platform cfg now it t u sa h1 h2 h3 h4
    simp only [normalizeItem, h1, h2, h3]
    rw [if_pos h4]
  · intro platform cfg now items rows h r hr
    obtain ⟨it, hit⟩ := buildRows_mem platform cfg now items rows h r hr
    have hf := normalizeItem_fields platform cfg now it r hit
    exact ⟨hf.1, hf.2.1⟩

/-- C3: for every stored record, `scraped_date` is the prefix of the stored
`scraped_at` before its first space; and when the raw item supplies no
`scraped_at` (absent or blank after trimming), `scraped_at` is stamped with
`now` — the wall-clock time formatted at second precision
(`datetime.now().strftime("%Y-%m-%d %H:%M:%S")`) — before `scraped_date` is
derived from it; a nonblank trimmed `scraped_at` is kept as given. -/
theorem scraped_date_derived (platform : String) (cfg : UpsertConfig) (now : String)
    (it : RawItem) (r : Row) (h : normalizeItem platform cfg now it = .ok (some r)) :
    r.scraped_date = splitSpaceHead r.scraped_at ∧
    (getStripped it "scraped_at" = some "" → r.scraped_at = now) ∧
    (∀ sa, getStripped it "scraped_at" = some sa → sa ≠ "" → r.scraped_at = sa) :=
  ⟨(normalizeItem_fields platform cfg now it r h).2.2.1,
   (normalizeItem_fields platform cfg now it r h).2.2.2.2.2.1,
   (normalizeItem_fields platform cfg now it r h).2.2.2.2.2.2⟩

theorem scraped_date_derived_witness :
    rowA.scraped_date = splitSpaceHead rowA.scraped_at ∧
    (getStripped itemA "scraped_at" = some "" → rowA.scraped_at = "2099-01-01 00:00:00") ∧
    (∀ sa, getStripped itemA "scraped_at" = some sa → sa ≠ "" → rowA.scraped_at = sa) :=
  scraped_date_derived "baidu" {} "2099-01-01 00:00:00" itemA rowA rfl

/-- C4: `_as_int` is total (it yields `none` or an integer, never an
exception); it returns the direct integer parse when that succeeds, falls
back to the float parse truncated toward zero otherwise, and gives up with
`none`; on `"42"`, `42.9`, `None`, `""`, `"abc"` it yields `42`, `42`,
absent, absent, absent; and a coercion failure only makes that one field
NULL — the record itself is still normalized and stored, its `heat_value`
and `rank` being exactly the coercion results. -/
theorem as_int_total_coercion :
    (∀ v : Value, _as_int v = none ∨ ∃ n : Int, _as_int v = some n) ∧
    (∀ (v : Value) (n : Int), pyIntOfValue v = some n → isNoneOrEmptyStr v = false →
      _as_int v = some n) ∧
    (∀ v : Value, pyIntOfValue v = none → isNoneOrEmptyStr v = false →
      _as_int v = (pyFloatOfValue v).map ratTrunc) ∧
    _as_int (.vStr "42") = some 42 ∧
    _as_int (.vFloat (mkRat 429 10)) = some 42 ∧
    _as_int .vNone = none ∧
    _as_int (.vStr "") = none ∧
    _as_int (.vStr "abc") = none ∧
    (∀ (platform : String) (cfg : UpsertConfig) (now : String) (it : RawItem) (r : Row),
      normalizeItem platform cfg now it = .ok (some r) →
      r.heat_value = _as_int (dictGetD it "heat_value" (dictGetOrNone it "num")) ∧
      r.rank = _as_int (dictGetOrNone it "rank")) ∧
    normalizeItem "p" {} "2025-01-02 00:00:00" itemBadHeat = .ok (some rowBadHeat) := by
  refine ⟨?_, ?_, ?_, by decide, by decide, by decide, by decide, by decide, ?_, rfl⟩
  · intro v
    cases _as_int v with
    | none => exact Or.inl rfl
    | some n => exact Or.inr ⟨n, rfl⟩
  · intro v n h1 h2
    simp [_as_int, h1, h2]
  · intro v h1 h2
    simp only [_as_int, h1, h2, Bool.false_eq_true, if_false]
    cases pyFloatOfValue v <;> simp
  · intro platform cfg now it r h
    exact ⟨(normalizeItem_fields platform cfg now it r h).2.2.2.1,
      (normalizeItem_fields platform cfg now it r h).2.2.2.2.1⟩

/-- C5: the weibo heat resolver parses the leading numeric literal, scales
by 10^4 for "万" and 10^8 for "亿", keeps natural units otherwise —
`"7904613"` ↦ 7904613, `"23.00 万"` ↦ 230000, `"1.5 亿"` ↦ 150000000, and
non-numeric input like `"abc"` or blank input yields absent. But malformed
input does not always yield absent: `"."` matches the regex's `[\d.]+`
group and `float(".")` then raises an uncaught `ValueError`, contradicting
the claim that malformed input yields absent rather than raising. -/
theorem parse_heat_value_units :
    _parse_heat_value "7904613" = .ok (some 7904613) ∧
    _parse_heat_value "23.00 万" = .ok (some 230000) ∧
    _parse_heat_value "1.5 亿" = .ok (some 150000000) ∧
    _parse_heat_value "abc" = .ok none ∧
    _parse_heat_value "" = .ok none ∧
    _parse_heat_value "." = .error () :=
  ⟨rfl, rfl, rfl, rfl, rfl, rfl⟩

/-- C10 counterexample: an item whose `heat_value` key is present but
uncoercible stores a NULL heat_value even though its `num` field coerces to
42 — so it is not the case that heat_value is absent only when both keys are
absent or both coercions fail. -/
theorem heat_value_num_fallback_cex :
    normalizeItem "p" {} "2025-01-02 00:00:00" item10 = .ok (some row10) ∧
    row10.heat_value = none ∧
    dictGet item10 "heat_value" = some (.vStr "abc") ∧
    _as_int (dictGetOrNone item10 "num") = some 42 :=
  ⟨rfl, rfl, rfl, rfl⟩

/-- C10 (amended): when the raw item has no `heat_value` key, the stored
heat_value is the coercion of the item's `num` field; when the key is
present, its value alone is coerced and `num` is ignored — so heat_value is
stored absent exactly when the selected value's coercion fails. -/
theorem heat_value_num_fallback :
    (∀ (platform : String) (cfg : UpsertConfig) (now : String) (it : RawItem) (r : Row),
      normalizeItem platform cfg now it = .ok (some r) → dictGet it "heat_value" = none →
      r.heat_value = _as_int (dictGetOrNone it "num")) ∧
    (∀ (platform : String) (cfg : UpsertConfig) (now : String) (it : RawItem) (r : Row)
        (v : Value),
      normalizeItem platform cfg now it = .ok (some r) → dictGet it "heat_value" = some v →
      r.heat_value = _as_int v) := by
  constructor
  · intro platform cfg now it r h hk
    rw [(normalizeItem_fields platform cfg now it r h).2.2.2.1]
    unfold dictGetD
    rw [hk]
    rfl
  · intro platform cfg now it r v h hk
    rw [(normalizeItem_fields platform cfg now it r h).2.2.2.1]
    unfold dictGetD
    rw [hk]
    rfl

/-! ## The LIKE escaping contract -/

theorem pyReplaceChar_append (n : Char) (r : List Char) (a b : List Char) :
    pyReplaceChar n r (a ++ b) = pyReplaceChar n r a ++ pyReplaceChar n r b := by
  induction a with
  | nil => rfl
  | cons c a ih => simp [pyReplaceChar, ih, List.append_assoc]

theorem escapeL_cons (c : Char) (l : List Char) :
    escapeL (c :: l) = escChar c ++ escapeL l := by
  by_cases h1 : c = '\\'
  · subst h1
    rfl
  · by_cases h2 : c = '%'
    · subst h2
      rfl
    · by_cases h3 : c = '_'
      · subst h3
        rfl
      · simp [escapeL, pyReplaceChar, pyReplaceChar_append, escChar, h1, h2, h3]

theorem likeMatch_pct (p t : List Char) :
    likeMatch ('%' :: p) t = t.tails.any (fun s => likeMatch p s) := by
  rw [likeMatch.eq_def]
  rfl

theorem likeMatch_esc_nil (e : Char) (p : List Char) :
    likeMatch ('\\' :: e :: p) [] = false := by
  rw [likeMatch.eq_def]
  rfl

theorem likeMatch_esc_cons (e : Char) (p : List Char) (d : Char) (t' : List Char) :
    likeMatch ('\\' :: e :: p) (d :: t') =
      ((likeFoldChar e == likeFoldChar d) && likeMatch p t') := by
  rw [likeMatch.eq_def]
  rfl

theorem likeMatch_lit_nil (a : Char) (p : List Char)
    (h1 : ¬(a = '%')) (h2 : ¬(a = '_')) (h3 : ¬(a = '\\')) :
    likeMatch (a :: p) [] = false := by
  rw [likeMatch.eq_def]
  show (if a = '%' then _ else _) = _
  rw [if_neg h1, if_neg h2, if_neg h3]

theorem likeMatch_lit_cons (a : Char) (p : List Char) (d : Char) (t' : List Char)
    (h1 : ¬(a = '%')) (h2 : ¬(a = '_')) (h3 : ¬(a = '\\')) :
    likeMatch (a :: p) (d :: t') = ((likeFoldChar a == likeFoldChar d) && likeMatch p t') := by
  rw [likeMatch.eq_def]
  show (if a = '%' then _ else _) = _
  rw [if_neg h1, if_neg h2, if_neg h3]

theorem escChar_match (c : Char) (q : List Char) (t : List Char) :
    likeMatch (escChar c ++ q) t =
      match t with
      | [] => false
      | d :: t' => (likeFoldChar c == likeFoldChar d) && likeMatch q t' := by
  by_cases meta : c = '\\' ∨ c = '%' ∨ c = '_'
  · rw [show escChar c = ['\\', c] from if_pos meta]
    cases t with
    | nil => exact likeMatch_esc_nil c q
    | cons d t' => exact likeMatch_esc_cons c q d t'
  · have h1 : ¬(c = '\\') := fun hx => meta (Or.inl hx)
    have h2 : ¬(c = '%') := fun hx => meta (Or.inr (Or.inl hx))
    have h3 : ¬(c = '_') := fun hx => meta (Or.inr (Or.inr hx))
    rw [show escChar c = [c] from if_neg meta]
    cases t with
    | nil => exact likeMatch_lit_nil c q h2 h3 h1
    | cons d t' => exact likeMatch_lit_cons c q d t' h2 h3 h1

theorem escAppend_match (kw rest : List Char) : ∀ t : List Char,
    likeMatch (escapeL kw ++ rest) t = true ↔
      ∃ t₁ t₂, t = t₁ ++ t₂ ∧ t₁.map likeFoldChar = kw.map likeFoldChar ∧
        likeMatch rest t₂ = true := by
  induction kw with
  | nil =>
    intro t
    show likeMatch rest t = true ↔ _
    constructor
    · intro h
      exact ⟨[], t, rfl, rfl, h⟩
    · rintro ⟨t₁, t₂, rfl, hm, hr⟩
      have ht1 : t₁ = [] := by simpa using hm
      subst ht1
      simpa using hr
  | cons c kw ih =>
    intro t
    rw [escapeL_cons, List.append_assoc, escChar_match]
    cases t with
    | nil =>
      show false = true ↔ _
      constructor
      · intro h
        exact absurd h (by simp)
      · rintro ⟨t₁, t₂, ht, hm, hr⟩
        have ht1 : t₁ = [] := (List.append_eq_nil.mp ht.symm).1
        subst ht1
        simp at hm
    | cons d t' =>
      show ((likeFoldChar c == likeFoldChar d) && likeMatch (escapeL kw ++ rest) t') = true ↔ _
      rw [Bool.and_eq_true, beq_iff_eq, ih t']
      constructor
      · rintro ⟨hcd, t₁, t₂, rfl, hm, hr⟩
        exact ⟨d :: t₁, t₂, rfl, by simp [hm, hcd], hr⟩
      · rintro ⟨t₁, t₂, ht, hm, hr⟩
        cases t₁ with
        | nil => simp at hm
        | cons x t₁' =>
          simp only [List.map_cons, List.cons.injEq] at hm
          simp only [List.cons_append, List.cons.injEq] at ht
          obtain ⟨hdx, ht'⟩ := ht
          subst hdx
          exact ⟨hm.1.symm, t₁', t₂, ht', hm.2, hr⟩

theorem pct_match (p t : List Char) :
    likeMatch ('%' :: p) t = true ↔ ∃ t₂, t₂ <:+ t ∧ likeMatch p t₂ = true := by
  rw [likeMatch_pct, List.any_eq_true]
  constructor
  · rintro ⟨s, hs, h⟩
    exact ⟨s, (List.mem_tails s t).mp hs, h⟩
  · rintro ⟨s, hs, h⟩
    exact ⟨s, (List.mem_tails s t).mpr hs, h⟩

theorem pct_end (t : List Char) : likeMatch ['%'] t = true :=
  (pct_match [] t).mpr ⟨[], List.nil_suffix, rfl⟩

/-- C7: the keyword pattern built by `count_history`/`query_history`
(`"%" + _escape_like(keyword) + "%"` matched with `ESCAPE '\'`) treats the
LIKE metacharacters `%`, `_` and `\` occurring in the keyword as literal
characters: the pattern matches a stored text exactly when the keyword is a
contiguous (ASCII-case-folded) substring of it. Concretely, the keyword
`"50%"` with its literal percent finds the title `"a 50% off"`, while
`"5%f"` does not match it — its `%` does not act as a wildcard. -/
theorem keyword_like_escaped_literal :
    (∀ (kw : String) (t : List Char),
      likeMatch (mkLikePattern kw) t = true ↔
        ∃ u v, t.map likeFoldChar = u ++ kw.data.map likeFoldChar ++ v) ∧
    keywordFilter (some "50%") storedPct = true ∧
    keywordFilter (some "5%f") storedPct = false := by
  refine ⟨?_, by decide, by decide⟩
  intro kw t
  show likeMatch ('%' :: (escapeL kw.data ++ ['%'])) t = true ↔ _
  rw [pct_match]
  constructor
  · rintro ⟨t₂, ⟨t₀, rfl⟩, h⟩
    rw [escAppend_match] at h
    obtain ⟨t₁, t₃, rfl, hm, _⟩ := h
    refine ⟨t₀.map likeFoldChar, t₃.map likeFoldChar, ?_⟩
    simp [hm, List.append_assoc]
  · rintro ⟨u, v, huv⟩
    refine ⟨t.drop u.length, ⟨t.take u.length, List.take_append_drop _ _⟩, ?_⟩
    rw [escAppend_match]
    refine ⟨(t.drop u.length).take kw.data.length, (t.drop u.length).drop kw.data.length,
      (List.take_append_drop _ _).symm, ?_, pct_end _⟩
    have h1 : (t.map likeFoldChar).drop u.length = kw.data.map likeFoldChar ++ v := by
      rw [huv, List.append_assoc, List.drop_left]
    rw [List.map_take, List.map_drop, h1,
      show kw.data.length = (kw.data.map likeFoldChar).length from (List.length_map _ _).symm]
    exact List.take_left _ _

/-! ## The order-by allow-list -/

theorem orderLe_default (a b : StoredRow) :
    orderLe "scraped_at DESC" a b = decide (b.row.scraped_at ≤ a.row.scraped_at) := rfl

instance : IsTotal StoredRow (ordRel "scraped_at DESC") := by
  constructor
  intro a b
  unfold ordRel
  rw [orderLe_default, orderLe_default]
  rcases le_total b.row.scraped_at a.row.scraped_at with h | h
  · exact Or.inl (decide_eq_true h)
  · exact Or.inr (decide_eq_true h)

instance : IsTrans StoredRow (ordRel "scraped_at DESC") := by
  constructor
  intro a b c hab hbc
  unfold ordRel at hab hbc ⊢
  rw [orderLe_default] at hab hbc ⊢
  exact decide_eq_true (le_trans (of_decide_eq_true hbc) (of_decide_eq_true hab))

/-- C6: an `order_by` string outside the fixed allow-list never raises and is
silently replaced by the default most-recent-capture-first clause: the query
behaves exactly as with `"scraped_at DESC"` and its result is sorted by
descending `scraped_at`; an allow-listed string is used as given. -/
theorem query_order_allowlist (db : DB) (keyword : Option String)
    (platforms : Option (List String)) (date_from date_to : Option String)
    (order_by : String) (limit offset : Int) (h : order_by ∉ _ALLOWED_ORDERS) :
    query_history db keyword platforms date_from date_to order_by limit offset =
      query_history db keyword platforms date_from date_to "scraped_at DESC" limit offset ∧
    List.Sorted (ordRel "scraped_at DESC")
      (query_history db keyword platforms date_from date_to order_by limit offset) ∧
    (∀ ob ∈ _ALLOWED_ORDERS, resolveOrder ob = ob) := by
  have hro : resolveOrder order_by = "scraped_at DESC" := if_neg h
  have hrd : resolveOrder "scraped_at DESC" = "scraped_at DESC" := if_pos (by decide)
  refine ⟨?_, ?_, fun ob hob => if_pos hob⟩
  · simp only [query_history, hro, hrd]
  · simp only [query_history, hro]
    have hs : List.Sorted (ordRel "scraped_at DESC")
        (List.insertionSort (ordRel "scraped_at DESC")
          (filterRows db keyword platforms date_from date_to)) :=
      List.sorted_insertionSort _ _
    have h1 : List.Sorted (ordRel "scraped_at DESC")
        ((List.insertionSort (ordRel "scraped_at DESC")
          (filterRows db keyword platforms date_from date_to)).drop offset.toNat) :=
      List.Pairwise.sublist (List.drop_sublist _ _) hs
    by_cases hl : limit < 0
    · rw [if_pos hl]
      exact h1
    · rw [if_neg hl]
      exact List.Pairwise.sublist (List.take_sublist _ _) h1

theorem query_order_allowlist_witness :
    query_history emptyDB none none none none "evil" 50 0 =
      query_history emptyDB none none none none "scraped_at DESC" 50 0 ∧
    List.Sorted (ordRel "scraped_at DESC")
      (query_history emptyDB none none none none "evil" 50 0) ∧
    (∀ ob ∈ _ALLOWED_ORDERS, resolveOrder ob = ob) :=
  query_order_allowlist emptyDB none none none none "evil" 50 0 (by decide)
